import Mathlib

/-!
Verification of the DiceFlip search engine: a shallow embedding of the
game state, hash/transposition-table encoding, move generation, the
negamax search with table-assisted cutoffs, and the move selector,
together with theorems settling the specification's claims.
-/

namespace DiceFlip

/-- Two's-complement wrap of an `Int` into the `int8` range `[-128, 127]`,
modelling a C++ `static_cast<int8>`. -/
def i8 (x : Int) : Int := (x + 128) % 256 - 128

/-- Wrap of an `Int` into the `uint8` range `[0, 255]`,
modelling a C++ `static_cast<uint8>`. -/
def u8 (x : Int) : Nat := ((x % 256)).toNat

/-- The game state: `lastMove` is the dice face that produced this state
(a `uint8`, modelled as `Nat`), `total` the running total (`int8`),
`activePlayer` the player to move next (`int8`, ±1), `winner` 0 or ±1. -/
structure GameState where
  lastMove : Nat
  total : Int
  activePlayer : Int
  winner : Int
deriving DecidableEq, Repr

/-- The `hash` function: one byte per field, `total` (biased by +128) in the
low byte, then `activePlayer`, `winner`, and `lastMove` in the high byte. -/
def hash (s : GameState) : Nat :=
  u8 (s.total + 128)
    ||| (u8 (s.activePlayer + 128) <<< 8)
    ||| (u8 (s.winner + 128) <<< 16)
    ||| ((s.lastMove % 256) <<< 24)

/-- The transposition table, one `uint16` slot per 32-bit key. -/
def Table : Type := Nat → Nat

/-- The zero-initialized (all absent) table. -/
def zeroT : Table := fun _ => 0

/-- Writing one slot of the table. -/
def update (t : Table) (k v : Nat) : Table := fun k' => if k' = k then v else t k'

/-- `NODE_TYPE_EXACT`. -/
def NODE_TYPE_EXACT : Nat := 1
/-- `NODE_TYPE_LOWER`. -/
def NODE_TYPE_LOWER : Nat := 2
/-- `NODE_TYPE_UPPER`. -/
def NODE_TYPE_UPPER : Nat := 3

/-- Packs a table record: `(uint16(depth) << 8) | (type << 6) | uint8(eval)`,
truncated to `uint16`.  `depth` and `ty` are `uint8` parameters. -/
def makeTTVal (depth : Nat) (ev : Int) (ty : Nat) : Nat :=
  (((depth % 256) <<< 8) ||| ((ty % 256) <<< 6) ||| u8 ev) % 65536

/-- Extracts the depth field of a table entry: `table[h] >> 8`. -/
def getDepth (t : Table) (h : Nat) : Nat := t h >>> 8

/-- Extracts the evaluation of a table entry:
`int8(table[h] & 0b111111)`. -/
def getRating (t : Table) (h : Nat) : Int := i8 ((t h &&& 63 : Nat) : Int)

/-- Extracts the node type of a table entry: `(table[h] >> 6) & 0b11`. -/
def getNodeType (t : Table) (h : Nat) : Nat := (t h >>> 6) &&& 3

/-- `createGameState`: a state with no winner set. -/
def createGameState (lastMove : Nat) (player : Int) (total : Int) : GameState :=
  { lastMove := lastMove % 256, total := i8 total, activePlayer := i8 player, winner := 0 }

/-- `performMove`: subtract the move from the total, flip the active player,
and record the new active player as winner when the new total is ≤ 0. -/
def performMove (s : GameState) (m : Nat) : GameState :=
  let newTotal := i8 (s.total - (m : Int))
  { lastMove := m % 256
    total := newTotal
    activePlayer := i8 (-s.activePlayer)
    winner := i8 ((if newTotal ≤ 0 then 1 else 0) * (-s.activePlayer)) }

/-- `getPossibleStates`: the four successors, in the order the source
writes them into `out[0..3]` (junk inputs give the empty list; the source
leaves the array uninitialized there). -/
def getPossibleStates (s : GameState) : List GameState :=
  match s.lastMove with
  | 6 | 1 => [performMove s 5, performMove s 4, performMove s 3, performMove s 2]
  | 5 | 2 => [performMove s 6, performMove s 4, performMove s 3, performMove s 1]
  | 4 | 3 => [performMove s 6, performMove s 5, performMove s 2, performMove s 1]
  | _ => []

/-- The leaf evaluation `eval`: `(total <= 0) * winner`. -/
def eval (s : GameState) : Int := (if s.total ≤ 0 then 1 else 0) * s.winner

/-- One "recurse, update `max`, store" step of the `miniMax` child loop
(the part after the table consultation): returns the new running maximum
and the table after the recursive call and the store. -/
def ttStep (rec : GameState → Int → Int → Table → Int × Table) (d : Nat)
    (c : GameState) (m alpha beta : Int) (t : Table) : Int × Table :=
  let res := rec c alpha beta t
  let v := i8 (-res.1)
  let m' := if v > m then v else m
  let t' := update res.2 (hash c)
    (if v ≤ alpha then makeTTVal d v NODE_TYPE_UPPER
     else if v ≥ beta then makeTTVal d v NODE_TYPE_LOWER
     else makeTTVal d v NODE_TYPE_EXACT)
  (m', t')

/-- The child loop of `miniMax`: for each successor, consult the table
(when the stored depth is positive and at least the current depth), apply
the EXACT/LOWER/UPPER logic, otherwise recurse and store (`ttStep`).
`rec` is the recursive search at depth `d - 1`; `d` is the current depth. -/
def ttLoop (rec : GameState → Int → Int → Table → Int × Table) (d : Nat) :
    List GameState → Int → Int → Int → Table → Int × Table
  | [], m, _, _, t => (m, t)
  | c :: cs, m, alpha, beta, t =>
    let ttd := getDepth t (hash c)
    if 0 < ttd ∧ d ≤ ttd then
      let r := getRating t (hash c)
      let ty := getNodeType t (hash c)
      if ty = NODE_TYPE_EXACT then (r, t)
      else
        let alpha' := if ty = NODE_TYPE_LOWER ∧ r > alpha then r else alpha
        let beta' := if ty = NODE_TYPE_UPPER ∧ r < beta then r else beta
        if alpha' ≥ beta' then (if r > m then r else m, t)
        else
          let p := ttStep rec d c m alpha' beta' t
          ttLoop rec d cs p.1 alpha' beta' p.2
    else
      let p := ttStep rec d c m alpha beta t
      ttLoop rec d cs p.1 alpha beta p.2

/-- `miniMax`: the search with alpha-beta windows and the transposition
table, returning the score and the table after the call. -/
def miniMax : Nat → GameState → Int → Int → Table → Int × Table
  | 0, s, _, _, t => (i8 (s.activePlayer * eval s), t)
  | d + 1, s, alpha, beta, t =>
    if s.total ≤ 0 then (i8 (s.activePlayer * eval s), t)
    else ttLoop (miniMax d) (d + 1) (getPossibleStates s) (-1) alpha beta t

/-- Modelled from the spec: the unpruned, table-free full minimax over the
same depth bound — the search with the transposition-table blocks removed. -/
def fullMiniMax : Nat → GameState → Int
  | 0, s => i8 (s.activePlayer * eval s)
  | d + 1, s =>
    if s.total ≤ 0 then i8 (s.activePlayer * eval s)
    else
      (getPossibleStates s).foldl
        (fun m c => if i8 (-(fullMiniMax d c)) > m then i8 (-(fullMiniMax d c)) else m) (-1)

/-- The game-theoretic value of a state: full minimax with a depth bound
that always exceeds the remaining game length. -/
def gameR (s : GameState) : Int := fullMiniMax (s.total.toNat + 1) s

/-- The scores `-miniMax(successor, 100, -128, 127)` computed by
`makeBestMove`, in order, threading the table through the four searches. -/
def scoresList : List GameState → Table → List Int
  | [], _ => []
  | c :: cs, t =>
    let res := miniMax 100 c (-128) 127 t
    i8 (-res.1) :: scoresList cs res.2

/-- The selection loop of `makeBestMove`: running maximum (`>=` update)
and index of the latest best-or-equal successor. -/
def bestLoop : List GameState → Nat → Int → Nat → Table → Int × Nat × Table
  | [], _, mx, mi, t => (mx, mi, t)
  | c :: cs, i, mx, mi, t =>
    let res := miniMax 100 c (-128) 127 t
    let ev := i8 (-res.1)
    if ev ≥ mx then bestLoop cs (i + 1) ev i res.2
    else bestLoop cs (i + 1) mx mi res.2

/-- A placeholder state for out-of-range list indexing (the source reads
an uninitialized array slot there). -/
def dummyState : GameState := ⟨0, 0, 0, 0⟩

/-- `makeBestMove`: evaluate each successor at depth 100 with the full
window, keep the last best-or-equal one (`max` starts at −2,
`maxI` at 0xFF), and return it. -/
def makeBestMove (s : GameState) (t : Table) : GameState × Table :=
  let ns := getPossibleStates s
  let res := bestLoop ns 0 (-2) 255 t
  (if res.1 = -2 then ns.getD 0 dummyState else ns.getD res.2.1 dummyState, res.2.2)

/-- States the Rule Engine can produce during a search: a legal last face,
a ±1 active player, the winner field determined by the misère rule, and a
total that cannot wrap (search successors keep `total ≥ -5`). -/
def ValidState (s : GameState) : Prop :=
  1 ≤ s.lastMove ∧ s.lastMove ≤ 6 ∧
    (s.activePlayer = 1 ∨ s.activePlayer = -1) ∧
    s.winner = (if s.total ≤ 0 then s.activePlayer else 0) ∧
    -5 ≤ s.total ∧ s.total ≤ 127

instance (s : GameState) : Decidable (ValidState s) := by
  unfold ValidState; infer_instance

/-- All four fields fit the byte-wide ranges the hash packs them into. -/
def InByteRange (s : GameState) : Prop :=
  s.lastMove < 256 ∧ -128 ≤ s.total ∧ s.total ≤ 127 ∧
    -128 ≤ s.activePlayer ∧ s.activePlayer ≤ 127 ∧
    -128 ≤ s.winner ∧ s.winner ≤ 127

instance (s : GameState) : Decidable (InByteRange s) := by
  unfold InByteRange; infer_instance

/-! ### Arithmetic and bit-level helpers -/

theorem i8_eq {x : Int} (h1 : -128 ≤ x) (h2 : x ≤ 127) : i8 x = x := by
  unfold i8; omega

theorem u8_lt (x : Int) : u8 x < 256 := by
  unfold u8; omega

theorem shiftLeft_lor_eq {b : Nat} (a k : Nat) (hb : b < 2 ^ k) :
    (a <<< k) ||| b = a * 2 ^ k + b :=
  calc (a <<< k) ||| b = 2 ^ k * a ||| b := by rw [Nat.shiftLeft_eq, Nat.mul_comm]
    _ = 2 ^ k * a + b := (Nat.mul_add_lt_is_or hb a).symm
    _ = a * 2 ^ k + b := by rw [Nat.mul_comm]

theorem lor_shift8 {b : Nat} (a : Nat) (hb : b < 256) : (a <<< 8) ||| b = a * 256 + b := by
  have := shiftLeft_lor_eq a 8 (b := b) (by norm_num; omega)
  norm_num at this; omega

theorem lor_shift16 {b : Nat} (a : Nat) (hb : b < 65536) :
    (a <<< 16) ||| b = a * 65536 + b := by
  have := shiftLeft_lor_eq a 16 (b := b) (by norm_num; omega)
  norm_num at this; omega

theorem lor_shift24 {b : Nat} (a : Nat) (hb : b < 16777216) :
    (a <<< 24) ||| b = a * 16777216 + b := by
  have := shiftLeft_lor_eq a 24 (b := b) (by norm_num; omega)
  norm_num at this; omega

set_option maxHeartbeats 1000000 in
theorem hash_eq (s : GameState) :
    hash s = u8 (s.total + 128) + 256 * u8 (s.activePlayer + 128)
      + 65536 * u8 (s.winner + 128) + 16777216 * (s.lastMove % 256) := by
  have h0 := u8_lt (s.total + 128)
  have h1 := u8_lt (s.activePlayer + 128)
  have h2 := u8_lt (s.winner + 128)
  unfold hash
  rw [Nat.or_comm (u8 (s.total + 128)), lor_shift8 _ h0,
    Nat.or_comm _ (u8 (s.winner + 128) <<< 16), lor_shift16 _ (by omega),
    Nat.or_comm _ ((s.lastMove % 256) <<< 24), lor_shift24 _ (by omega)]
  omega

set_option maxHeartbeats 1000000 in
theorem hash_inj {s s' : GameState} (hs : InByteRange s) (hs' : InByteRange s')
    (h : hash s = hash s') : s = s' := by
  rw [hash_eq, hash_eq] at h
  obtain ⟨lm, tot, ap, w⟩ := s
  obtain ⟨lm', tot', ap', w'⟩ := s'
  obtain ⟨b1, b2, b3, b4, b5, b6, b7⟩ := hs
  obtain ⟨c1, c2, c3, c4, c5, c6, c7⟩ := hs'
  simp only [GameState.mk.injEq]
  unfold u8 at h
  simp only at *
  omega

/-! ### Transposition-table entry decoding -/

theorem low_lt {ty : Nat} (v : Int) (hty : ty ≤ 3) : (ty <<< 6) ||| u8 v < 256 := by
  have h : (ty <<< 6) ||| u8 v < 2 ^ 8 :=
    Nat.or_lt_two_pow (by rw [Nat.shiftLeft_eq]; norm_num; omega)
      (by have := u8_lt v; norm_num; omega)
  norm_num at h; omega

theorem makeTTVal_eq {dd : Nat} (v : Int) {ty : Nat} (hdd : dd ≤ 255) (hty : ty ≤ 3) :
    makeTTVal dd v ty = dd * 256 + ((ty <<< 6) ||| u8 v) := by
  have hlow := low_lt v hty
  unfold makeTTVal
  rw [Nat.mod_eq_of_lt (a := dd) (by omega), Nat.mod_eq_of_lt (a := ty) (by omega),
    Nat.or_assoc, lor_shift8 _ hlow, Nat.mod_eq_of_lt (by omega)]

theorem entry_decode {t : Table} {k : Nat} {dd : Nat} {v : Int} {ty : Nat}
    (hdd : dd ≤ 255) (hty : ty ≤ 3) (he : t k = makeTTVal dd v ty) :
    getDepth t k = dd ∧
    getRating t k = i8 ((((ty <<< 6) ||| u8 v) % 64 : Nat) : Int) ∧
    getNodeType t k = ((ty <<< 6) ||| u8 v) / 64 := by
  have hlow := low_lt v hty
  have hv : t k = dd * 256 + ((ty <<< 6) ||| u8 v) := he.trans (makeTTVal_eq v hdd hty)
  refine ⟨?_, ?_, ?_⟩
  · unfold getDepth
    rw [hv, Nat.shiftRight_eq_div_pow]
    norm_num
    omega
  · unfold getRating
    rw [hv, show (63 : Nat) = 2 ^ 6 - 1 by norm_num, Nat.and_pow_two_sub_one_eq_mod]
    norm_num
    congr 1
    omega
  · unfold getNodeType
    rw [hv, Nat.shiftRight_eq_div_pow,
      show (3 : Nat) = 2 ^ 2 - 1 by norm_num, Nat.and_pow_two_sub_one_eq_mod]
    norm_num
    omega

theorem entry_decode_exact0 {t : Table} {k : Nat} {dd : Nat}
    (hdd : dd ≤ 255) (he : t k = makeTTVal dd 0 NODE_TYPE_EXACT) :
    getDepth t k = dd ∧ getRating t k = 0 ∧ getNodeType t k = 1 := by
  obtain ⟨h1, h2, h3⟩ := entry_decode hdd (by norm_num [NODE_TYPE_EXACT]) he
  refine ⟨h1, ?_, ?_⟩
  · rw [h2]; decide
  · rw [h3]; decide

theorem entry_decode_exact1 {t : Table} {k : Nat} {dd : Nat}
    (hdd : dd ≤ 255) (he : t k = makeTTVal dd 1 NODE_TYPE_EXACT) :
    getDepth t k = dd ∧ getRating t k = 1 ∧ getNodeType t k = 1 := by
  obtain ⟨h1, h2, h3⟩ := entry_decode hdd (by norm_num [NODE_TYPE_EXACT]) he
  refine ⟨h1, ?_, ?_⟩
  · rw [h2]; decide
  · rw [h3]; decide

theorem entry_decode_exactm1 {t : Table} {k : Nat} {dd : Nat}
    (hdd : dd ≤ 255) (he : t k = makeTTVal dd (-1) NODE_TYPE_EXACT) :
    getDepth t k = dd ∧ getRating t k = 63 ∧ getNodeType t k = 3 := by
  obtain ⟨h1, h2, h3⟩ := entry_decode hdd (by norm_num [NODE_TYPE_EXACT]) he
  refine ⟨h1, ?_, ?_⟩
  · rw [h2]; decide
  · rw [h3]; decide

theorem update_self (t : Table) (k v : Nat) : update t k v k = v := by
  unfold update; simp

theorem update_ne (t : Table) (k v k' : Nat) (h : k' ≠ k) : update t k v k' = t k' := by
  unfold update; simp [h]

/-! ### State validity and the Rule Engine -/

theorem ValidState.byteRange {s : GameState} (h : ValidState s) : InByteRange s := by
  obtain ⟨h1, h2, h3, h4, h5, h6⟩ := h
  unfold InByteRange
  rcases h3 with h3 | h3 <;> split at h4 <;> omega

theorem performMove_lastMove (s : GameState) (m : Nat) :
    (performMove s m).lastMove = m % 256 := rfl

theorem performMove_total (s : GameState) (m : Nat) :
    (performMove s m).total = i8 (s.total - m) := rfl

theorem performMove_active (s : GameState) (m : Nat) :
    (performMove s m).activePlayer = i8 (-s.activePlayer) := rfl

theorem performMove_winner (s : GameState) (m : Nat) :
    (performMove s m).winner
      = i8 ((if i8 (s.total - m) ≤ 0 then 1 else 0) * -s.activePlayer) := rfl

theorem performMove_fields (s : GameState) (m : Nat) (hm1 : 1 ≤ m) (hm6 : m ≤ 6)
    (ht1 : -122 ≤ s.total) (ht2 : s.total ≤ 127)
    (hp : s.activePlayer = 1 ∨ s.activePlayer = -1) :
    (performMove s m).total = s.total - m ∧
    (performMove s m).activePlayer = -s.activePlayer ∧
    (performMove s m).lastMove = m ∧
    (performMove s m).winner = (if s.total - m ≤ 0 then -s.activePlayer else 0) := by
  have hb1 : (-128 : Int) ≤ s.total - m := by omega
  have hb2 : s.total - (m : Int) ≤ 127 := by omega
  have htot : (performMove s m).total = s.total - m := by
    rw [performMove_total]; exact i8_eq hb1 hb2
  have hact : (performMove s m).activePlayer = -s.activePlayer := by
    rw [performMove_active]; rcases hp with h | h <;> rw [h] <;> decide
  have hwin : (performMove s m).winner = (if s.total - m ≤ 0 then -s.activePlayer else 0) := by
    rw [performMove_winner, i8_eq hb1 hb2]
    split
    · rw [one_mul]; rcases hp with h | h <;> rw [h] <;> decide
    · rw [zero_mul]; decide
  exact ⟨htot, hact, by rw [performMove_lastMove]; omega, hwin⟩

theorem performMove_valid (s : GameState) (m : Nat) (hs : ValidState s)
    (h1 : 1 ≤ s.total) (hm1 : 1 ≤ m) (hm6 : m ≤ 6) :
    ValidState (performMove s m) ∧ (performMove s m).total = s.total - m := by
  obtain ⟨v1, v2, v3, v4, v5, v6⟩ := hs
  obtain ⟨htot, hact, hlm, hwin⟩ := performMove_fields s m hm1 hm6 (by omega) v6 v3
  refine ⟨⟨by omega, by omega, ?_, ?_, by omega, by omega⟩, htot⟩
  · rw [hact]; rcases v3 with h | h <;> rw [h] <;> [right; left] <;> decide
  · rw [hwin, hact, htot]

theorem getPossibleStates_valid (s : GameState) (hs : ValidState s) (h1 : 1 ≤ s.total) :
    ∀ c ∈ getPossibleStates s, ValidState c ∧ c.total < s.total ∧ s.total - 6 ≤ c.total := by
  have key : ∀ m, 1 ≤ m → m ≤ 6 →
      ValidState (performMove s m) ∧ (performMove s m).total < s.total ∧
        s.total - 6 ≤ (performMove s m).total := by
    intro m hm1 hm6
    obtain ⟨hv, htot⟩ := performMove_valid s m hs h1 hm1 hm6
    refine ⟨hv, by omega, by omega⟩
  intro c hc
  obtain ⟨v1, v2, _⟩ := hs
  unfold getPossibleStates at hc
  interval_cases h : s.lastMove <;> simp at hc <;>
    rcases hc with rfl | rfl | rfl | rfl <;>
    first
      | exact key 1 (by omega) (by omega)
      | exact key 2 (by omega) (by omega)
      | exact key 3 (by omega) (by omega)
      | exact key 4 (by omega) (by omega)
      | exact key 5 (by omega) (by omega)
      | exact key 6 (by omega) (by omega)

theorem eval_eq (s : GameState) : eval s = (if s.total ≤ 0 then s.winner else 0) := by
  unfold eval; split <;> ring

/-! ### Fold helpers for the child loop -/

theorem foldl_step_top (f : GameState → Int) (cs : List GameState) (m : Int)
    (h : ∀ c ∈ cs, f c ≤ m) :
    cs.foldl (fun acc c => if f c > acc then f c else acc) m = m := by
  induction cs with
  | nil => rfl
  | cons c cs ih =>
    simp only [List.foldl_cons]
    rw [if_neg (by have := h c (by simp); omega)]
    exact ih fun c' hc' => h c' (by simp [hc'])

theorem foldl_step_bounds (f : GameState → Int) (cs : List GameState) {m lo hi : Int}
    (hm1 : lo ≤ m) (hm2 : m ≤ hi) (h : ∀ c ∈ cs, lo ≤ f c ∧ f c ≤ hi) :
    lo ≤ cs.foldl (fun acc c => if f c > acc then f c else acc) m ∧
      cs.foldl (fun acc c => if f c > acc then f c else acc) m ≤ hi := by
  induction cs generalizing m with
  | nil => exact ⟨hm1, hm2⟩
  | cons c cs ih =>
    simp only [List.foldl_cons]
    have hc := h c (by simp)
    exact ih (m := if f c > m then f c else m)
      (by split <;> omega) (by split <;> omega)
      (fun c' hc' => h c' (by simp [hc']))

theorem foldl_step_mem (f : GameState → Int) (cs : List GameState) {m : Int}
    (hm : m = -1 ∨ m = 1) (h : ∀ c ∈ cs, f c = -1 ∨ f c = 1) :
    cs.foldl (fun acc c => if f c > acc then f c else acc) m = -1 ∨
      cs.foldl (fun acc c => if f c > acc then f c else acc) m = 1 := by
  induction cs generalizing m with
  | nil => exact hm
  | cons c cs ih =>
    simp only [List.foldl_cons]
    have hc := h c (by simp)
    exact ih (m := if f c > m then f c else m)
      (by rcases hm with h' | h' <;> rcases hc with h'' | h'' <;> rw [h', h''] <;> simp)
      (fun c' hc' => h c' (by simp [hc']))

theorem foldl_step_congr (f g : GameState → Int) (cs : List GameState)
    (h : ∀ c ∈ cs, f c = g c) (m : Int) :
    cs.foldl (fun acc c => if f c > acc then f c else acc) m
      = cs.foldl (fun acc c => if g c > acc then g c else acc) m := by
  induction cs generalizing m with
  | nil => rfl
  | cons c cs ih =>
    simp only [List.foldl_cons]
    rw [h c (by simp)]
    exact ih (fun c' hc' => h c' (by simp [hc'])) _

/-! ### Depth stability of the reference minimax and the game value -/

theorem fullMiniMax_base {d : Nat} {s : GameState} (h : s.total ≤ 0) :
    fullMiniMax d s = i8 (s.activePlayer * eval s) := by
  cases d with
  | zero => rfl
  | succ k => simp only [fullMiniMax]; rw [if_pos h]

theorem base_val {s : GameState} (hs : ValidState s) (h : s.total ≤ 0) :
    i8 (s.activePlayer * eval s) = 1 := by
  obtain ⟨_, _, h3, h4, _, _⟩ := hs
  rw [eval_eq, if_pos h, h4, if_pos h]
  rcases h3 with h3 | h3 <;> rw [h3] <;> decide

theorem base_val0 {s : GameState} (h : 0 < s.total) :
    i8 (s.activePlayer * eval s) = 0 := by
  rw [eval_eq, if_neg (by omega), mul_zero]; decide

theorem gameR_terminal {s : GameState} (hs : ValidState s) (h : s.total ≤ 0) :
    gameR s = 1 := by
  unfold gameR; rw [fullMiniMax_base h]; exact base_val hs h

theorem fullMiniMax_stable :
    ∀ (d : Nat) (s : GameState), ValidState s → s.total < (d : Int) → fullMiniMax d s = gameR s := by
  intro d
  induction d using Nat.strong_induction_on with
  | _ d ih =>
    intro s hs hlt
    by_cases ht : s.total ≤ 0
    · rw [fullMiniMax_base ht, base_val hs ht, gameR_terminal hs ht]
    · push_neg at ht
      obtain ⟨k, rfl⟩ : ∃ k, d = k + 1 := ⟨d - 1, by omega⟩
      have hT1 : 1 ≤ s.total.toNat := by omega
      have hch := getPossibleStates_valid s hs (by omega)
      have e1 : fullMiniMax (k + 1) s
          = (getPossibleStates s).foldl
              (fun acc c => if i8 (-(gameR c)) > acc then i8 (-(gameR c)) else acc) (-1) := by
        simp only [fullMiniMax]
        rw [if_neg (by omega)]
        refine foldl_step_congr (fun c => i8 (-(fullMiniMax k c)))
          (fun c => i8 (-(gameR c))) _ (fun c hc => ?_) _
        obtain ⟨hvc, hlt2, _⟩ := hch c hc
        show i8 (-(fullMiniMax k c)) = i8 (-(gameR c))
        rw [ih k (by omega) c hvc (by omega)]
      have e2 : gameR s
          = (getPossibleStates s).foldl
              (fun acc c => if i8 (-(gameR c)) > acc then i8 (-(gameR c)) else acc) (-1) := by
        unfold gameR
        simp only [fullMiniMax]
        rw [if_neg (by omega)]
        refine foldl_step_congr (fun c => i8 (-(fullMiniMax s.total.toNat c)))
          (fun c => i8 (-(gameR c))) _ (fun c hc => ?_) _
        obtain ⟨hvc, hlt2, _⟩ := hch c hc
        show i8 (-(fullMiniMax s.total.toNat c)) = i8 (-(gameR c))
        rw [ih s.total.toNat (by omega) c hvc (by omega)]
      rw [e1, e2]

theorem gameR_unfold {s : GameState} (hs : ValidState s) (h1 : 1 ≤ s.total) :
    gameR s = (getPossibleStates s).foldl
      (fun acc c => if i8 (-(gameR c)) > acc then i8 (-(gameR c)) else acc) (-1) := by
  have hch := getPossibleStates_valid s hs h1
  unfold gameR
  simp only [fullMiniMax]
  rw [if_neg (by omega)]
  refine foldl_step_congr (fun c => i8 (-(fullMiniMax s.total.toNat c)))
    (fun c => i8 (-(gameR c))) _ (fun c hc => ?_) _
  obtain ⟨hvc, hlt2, _⟩ := hch c hc
  show i8 (-(fullMiniMax s.total.toNat c)) = i8 (-(gameR c))
  rw [fullMiniMax_stable s.total.toNat c hvc (by omega)]

theorem gameR_pm : ∀ s, ValidState s → gameR s = -1 ∨ gameR s = 1 := by
  suffices H : ∀ n s, ValidState s → s.total.toNat ≤ n → gameR s = -1 ∨ gameR s = 1 by
    intro s hs; exact H s.total.toNat s hs le_rfl
  intro n
  induction n with
  | zero =>
    intro s hs h0
    right; exact gameR_terminal hs (by omega)
  | succ n ih =>
    intro s hs hn
    by_cases ht : s.total ≤ 0
    · right; exact gameR_terminal hs ht
    · push_neg at ht
      have hch := getPossibleStates_valid s hs (by omega)
      rw [gameR_unfold hs (by omega)]
      refine foldl_step_mem _ _ (Or.inl rfl) (fun c hc => ?_)
      obtain ⟨hvc, hlt2, _⟩ := hch c hc
      rcases ih c hvc (by omega) with h | h <;> rw [h] <;> [right; left] <;> decide

theorem i8_neg_gameR {c : GameState} (hvc : ValidState c) :
    i8 (-(gameR c)) = -(gameR c) := by
  rcases gameR_pm c hvc with h | h <;> rw [h] <;> decide

/-! ### Reduction lemmas for the child loop -/

theorem ttLoop_nil (rec : GameState → Int → Int → Table → Int × Table)
    (d : Nat) (m alpha beta : Int) (t : Table) :
    ttLoop rec d [] m alpha beta t = (m, t) := rfl

theorem ttLoop_cons_miss (rec : GameState → Int → Int → Table → Int × Table)
    (d : Nat) (c : GameState) (cs : List GameState) (m alpha beta : Int) (t : Table)
    (h : ¬(0 < getDepth t (hash c) ∧ d ≤ getDepth t (hash c))) :
    ttLoop rec d (c :: cs) m alpha beta t
      = ttLoop rec d cs (ttStep rec d c m alpha beta t).1 alpha beta
          (ttStep rec d c m alpha beta t).2 := by
  simp only [ttLoop, if_neg h]

theorem ttLoop_cons_exact (rec : GameState → Int → Int → Table → Int × Table)
    (d : Nat) (c : GameState) (cs : List GameState) (m alpha beta : Int) (t : Table)
    (h : 0 < getDepth t (hash c) ∧ d ≤ getDepth t (hash c))
    (hty : getNodeType t (hash c) = NODE_TYPE_EXACT) :
    ttLoop rec d (c :: cs) m alpha beta t = (getRating t (hash c), t) := by
  simp only [ttLoop, if_pos h, hty]
  simp

theorem ttLoop_cons_upper63 (rec : GameState → Int → Int → Table → Int × Table)
    (d : Nat) (c : GameState) (cs : List GameState) (m beta : Int) (t : Table)
    (h : 0 < getDepth t (hash c) ∧ d ≤ getDepth t (hash c))
    (hty : getNodeType t (hash c) = NODE_TYPE_UPPER)
    (hr : getRating t (hash c) = 63)
    (hbeta : beta = 63 ∨ beta = 127) :
    ttLoop rec d (c :: cs) m (-128) beta t
      = ttLoop rec d cs (ttStep rec d c m (-128) 63 t).1 (-128) 63
          (ttStep rec d c m (-128) 63 t).2 := by
  simp only [ttLoop, if_pos h, hty, hr]
  rcases hbeta with h' | h' <;> subst h' <;>
    norm_num [NODE_TYPE_LOWER, NODE_TYPE_UPPER, NODE_TYPE_EXACT]

/-! ### The score-range invariant (claim C10) -/

/-- Every stored record is an EXACT-typed record for a score in
`{-1, 0, 1}`, written at a depth in `[1, 255]`. -/
def Inv10 (t : Table) : Prop :=
  ∀ s, ValidState s → t (hash s) = 0 ∨
    ∃ dd v, 1 ≤ dd ∧ dd ≤ 255 ∧ (v = -1 ∨ v = 0 ∨ v = 1) ∧
      t (hash s) = makeTTVal dd v NODE_TYPE_EXACT

theorem Inv10_zero : Inv10 zeroT := fun _ _ => Or.inl rfl

theorem Inv10_update {t : Table} (ht : Inv10 t) (k : Nat) {dd : Nat} {v : Int}
    (hdd1 : 1 ≤ dd) (hdd2 : dd ≤ 255) (hv : v = -1 ∨ v = 0 ∨ v = 1) :
    Inv10 (update t k (makeTTVal dd v NODE_TYPE_EXACT)) := by
  intro s hs
  by_cases hk : hash s = k
  · right
    exact ⟨dd, v, hdd1, hdd2, hv, by rw [hk, update_self]⟩
  · rw [update_ne _ _ _ _ hk]
    exact ht s hs

theorem ttStep_range (d : Nat) (hd1 : 1 ≤ d) (hd2 : d ≤ 255)
    (rec : GameState → Int → Int → Table → Int × Table)
    (c : GameState) (m beta : Int) (t : Table)
    (hres1 : -1 ≤ (rec c (-128) beta t).1) (hres2 : (rec c (-128) beta t).1 ≤ 1)
    (hresI : Inv10 (rec c (-128) beta t).2)
    (hbeta : beta = 63 ∨ beta = 127) (hm1 : -1 ≤ m) (hm2 : m ≤ 1) :
    (-1 ≤ (ttStep rec d c m (-128) beta t).1 ∧ (ttStep rec d c m (-128) beta t).1 ≤ 1) ∧
      Inv10 (ttStep rec d c m (-128) beta t).2 := by
  have hv : i8 (-(rec c (-128) beta t).1) = -(rec c (-128) beta t).1 :=
    i8_eq (by omega) (by omega)
  have c1 : ¬(-(rec c (-128) beta t).1 ≤ (-128 : Int)) := by omega
  have c2 : ¬(-(rec c (-128) beta t).1 ≥ beta) := by
    rcases hbeta with h | h <;> omega
  unfold ttStep
  dsimp only
  rw [hv, if_neg c1, if_neg c2]
  exact ⟨⟨by split <;> omega, by split <;> omega⟩,
    Inv10_update hresI _ hd1 hd2 (by omega)⟩

theorem ttLoop_range (d : Nat) (hd1 : 1 ≤ d) (hd2 : d ≤ 255)
    (rec : GameState → Int → Int → Table → Int × Table)
    (hrec : ∀ c beta t, ValidState c → (beta = 63 ∨ beta = 127) → Inv10 t →
      (-1 ≤ (rec c (-128) beta t).1 ∧ (rec c (-128) beta t).1 ≤ 1) ∧
        Inv10 (rec c (-128) beta t).2) :
    ∀ (cs : List GameState) (m beta : Int) (t : Table),
      (∀ c ∈ cs, ValidState c) → -1 ≤ m → m ≤ 1 → (beta = 63 ∨ beta = 127) → Inv10 t →
      (-1 ≤ (ttLoop rec d cs m (-128) beta t).1 ∧ (ttLoop rec d cs m (-128) beta t).1 ≤ 1) ∧
        Inv10 (ttLoop rec d cs m (-128) beta t).2 := by
  intro cs
  induction cs with
  | nil => intro m beta t _ hm1 hm2 _ ht; exact ⟨⟨hm1, hm2⟩, ht⟩
  | cons c cs ih =>
    intro m beta t hcs hm1 hm2 hbeta ht
    have hvc : ValidState c := hcs c (by simp)
    have hcs' : ∀ c' ∈ cs, ValidState c' := fun c' hc' => hcs c' (by simp [hc'])
    have hcont : ∀ (beta' : Int), (beta' = 63 ∨ beta' = 127) →
        (-1 ≤ (ttLoop rec d cs (ttStep rec d c m (-128) beta' t).1 (-128) beta'
            (ttStep rec d c m (-128) beta' t).2).1 ∧
          (ttLoop rec d cs (ttStep rec d c m (-128) beta' t).1 (-128) beta'
            (ttStep rec d c m (-128) beta' t).2).1 ≤ 1) ∧
          Inv10 (ttLoop rec d cs (ttStep rec d c m (-128) beta' t).1 (-128) beta'
            (ttStep rec d c m (-128) beta' t).2).2 := by
      intro beta' hbeta'
      obtain ⟨⟨q1, q2⟩, qI⟩ := hrec c beta' t hvc hbeta' ht
      obtain ⟨⟨s1, s2⟩, sI⟩ := ttStep_range d hd1 hd2 rec c m beta' t q1 q2 qI hbeta' hm1 hm2
      exact ih (ttStep rec d c m (-128) beta' t).1 beta'
        (ttStep rec d c m (-128) beta' t).2 hcs' s1 s2 hbeta' sI
    rcases ht c hvc with hzero | ⟨dd, v, hdd1, hdd2, hv3, he⟩
    · have hdep : getDepth t (hash c) = 0 := by
        unfold getDepth; rw [hzero]; rfl
      rw [ttLoop_cons_miss rec d c cs m (-128) beta t (by rw [hdep]; omega)]
      exact hcont beta hbeta
    · rcases hv3 with rfl | rfl | rfl
      · -- stored score -1: decodes as an UPPER record with rating 63
        obtain ⟨hdep, hr, hty⟩ := entry_decode_exactm1 hdd2 he
        by_cases hgd : d ≤ dd
        · rw [ttLoop_cons_upper63 rec d c cs m beta t ⟨by rw [hdep]; omega, by rw [hdep]; omega⟩ hty hr hbeta]
          exact hcont 63 (Or.inl rfl)
        · rw [ttLoop_cons_miss rec d c cs m (-128) beta t (by rw [hdep]; omega)]
          exact hcont beta hbeta
      · -- stored score 0: an EXACT record with rating 0
        obtain ⟨hdep, hr, hty⟩ := entry_decode_exact0 hdd2 he
        by_cases hgd : d ≤ dd
        · rw [ttLoop_cons_exact rec d c cs m (-128) beta t ⟨by rw [hdep]; omega, by rw [hdep]; omega⟩ hty, hr]
          exact ⟨⟨by omega, by omega⟩, ht⟩
        · rw [ttLoop_cons_miss rec d c cs m (-128) beta t (by rw [hdep]; omega)]
          exact hcont beta hbeta
      · -- stored score 1: an EXACT record with rating 1
        obtain ⟨hdep, hr, hty⟩ := entry_decode_exact1 hdd2 he
        by_cases hgd : d ≤ dd
        · rw [ttLoop_cons_exact rec d c cs m (-128) beta t ⟨by rw [hdep]; omega, by rw [hdep]; omega⟩ hty, hr]
          exact ⟨⟨by omega, by omega⟩, ht⟩
        · rw [ttLoop_cons_miss rec d c cs m (-128) beta t (by rw [hdep]; omega)]
          exact hcont beta hbeta

theorem miniMax_range :
    ∀ (d : Nat) (s : GameState) (beta : Int) (t : Table),
      ValidState s → d ≤ 255 → (beta = 63 ∨ beta = 127) → Inv10 t →
      (-1 ≤ (miniMax d s (-128) beta t).1 ∧ (miniMax d s (-128) beta t).1 ≤ 1) ∧
        Inv10 (miniMax d s (-128) beta t).2 := by
  intro d
  induction d with
  | zero =>
    intro s beta t hs _ _ ht
    refine ⟨?_, ht⟩
    show -1 ≤ i8 (s.activePlayer * eval s) ∧ i8 (s.activePlayer * eval s) ≤ 1
    by_cases h : s.total ≤ 0
    · rw [base_val hs h]; omega
    · rw [base_val0 (by omega)]; omega
  | succ k ih =>
    intro s beta t hs hd hbeta ht
    by_cases hterm : s.total ≤ 0
    · have h1 : miniMax (k + 1) s (-128) beta t = (i8 (s.activePlayer * eval s), t) := by
        simp only [miniMax, if_pos hterm]
      rw [h1]
      refine ⟨?_, ht⟩
      rw [base_val hs hterm]
      omega
    · have h1 : miniMax (k + 1) s (-128) beta t
          = ttLoop (miniMax k) (k + 1) (getPossibleStates s) (-1) (-128) beta t := by
        simp only [miniMax, if_neg hterm]
      rw [h1]
      have hch := getPossibleStates_valid s hs (by omega)
      exact ttLoop_range (k + 1) (by omega) (by omega) (miniMax k)
        (fun c beta' t' hvc hbeta' ht' => ih c beta' t' hvc (by omega) hbeta' ht')
        (getPossibleStates s) (-1) beta t (fun c hc => (hch c hc).1)
        (by omega) (by omega) hbeta ht

/-! ### The table-soundness invariant and pruning equivalence (claim C1) -/

/-- Every stored record is an EXACT-typed record holding the true
(parent-perspective) game value of its state, at a depth in `[1, 255]`. -/
def InvR (t : Table) : Prop :=
  ∀ s, ValidState s → t (hash s) = 0 ∨
    ∃ dd, 1 ≤ dd ∧ dd ≤ 255 ∧ t (hash s) = makeTTVal dd (-(gameR s)) NODE_TYPE_EXACT

theorem InvR_zero : InvR zeroT := fun _ _ => Or.inl rfl

theorem InvR_update {t : Table} (ht : InvR t) {c : GameState} (hvc : ValidState c)
    {dd : Nat} (hdd1 : 1 ≤ dd) (hdd2 : dd ≤ 255) :
    InvR (update t (hash c) (makeTTVal dd (-(gameR c)) NODE_TYPE_EXACT)) := by
  intro s hs
  by_cases hk : hash s = hash c
  · have hsc : s = c := hash_inj hs.byteRange hvc.byteRange hk
    subst hsc
    right
    exact ⟨dd, hdd1, hdd2, by rw [hk, update_self]⟩
  · rw [update_ne _ _ _ _ hk]
    exact ht s hs

theorem ttStep_correct (d : Nat) (hd1 : 1 ≤ d) (hd2 : d ≤ 255)
    (rec : GameState → Int → Int → Table → Int × Table)
    (c : GameState) (m beta : Int) (t : Table) (hvc : ValidState c)
    (hres1 : (rec c (-128) beta t).1 = gameR c)
    (hresI : InvR (rec c (-128) beta t).2)
    (hbeta : beta = 63 ∨ beta = 127) :
    (ttStep rec d c m (-128) beta t).1
        = (if i8 (-(gameR c)) > m then i8 (-(gameR c)) else m) ∧
      InvR (ttStep rec d c m (-128) beta t).2 := by
  have hpm := gameR_pm c hvc
  have hvv : i8 (-(gameR c)) = -(gameR c) := i8_neg_gameR hvc
  have c1 : ¬(-(gameR c) ≤ (-128 : Int)) := by rcases hpm with h | h <;> omega
  have c2 : ¬(-(gameR c) ≥ beta) := by
    rcases hpm with h | h <;> rcases hbeta with h' | h' <;> omega
  unfold ttStep
  dsimp only
  rw [hres1, hvv, if_neg c1, if_neg c2]
  exact ⟨rfl, InvR_update hresI hvc hd1 hd2⟩

theorem ttLoop_correct (d : Nat) (hd1 : 1 ≤ d) (hd2 : d ≤ 255)
    (rec : GameState → Int → Int → Table → Int × Table)
    (hrec : ∀ c beta t, ValidState c → c.total < (d : Int) - 1 →
      (beta = 63 ∨ beta = 127) → InvR t →
      (rec c (-128) beta t).1 = gameR c ∧ InvR (rec c (-128) beta t).2) :
    ∀ (cs : List GameState) (m beta : Int) (t : Table),
      (∀ c ∈ cs, ValidState c ∧ c.total < (d : Int) - 1) →
      -1 ≤ m → m ≤ 1 → (beta = 63 ∨ beta = 127) → InvR t →
      (ttLoop rec d cs m (-128) beta t).1
          = cs.foldl (fun acc c => if i8 (-(gameR c)) > acc then i8 (-(gameR c)) else acc) m ∧
        InvR (ttLoop rec d cs m (-128) beta t).2 := by
  intro cs
  induction cs with
  | nil => intro m beta t _ _ _ _ ht; exact ⟨rfl, ht⟩
  | cons c cs ih =>
    intro m beta t hcs hm1 hm2 hbeta ht
    obtain ⟨hvc, hlt⟩ := hcs c (by simp)
    have hcs' : ∀ c' ∈ cs, ValidState c' ∧ c'.total < (d : Int) - 1 :=
      fun c' hc' => hcs c' (by simp [hc'])
    have hpm := gameR_pm c hvc
    have hcont : ∀ (beta' : Int), (beta' = 63 ∨ beta' = 127) →
        (ttLoop rec d cs (ttStep rec d c m (-128) beta' t).1 (-128) beta'
            (ttStep rec d c m (-128) beta' t).2).1
            = (c :: cs).foldl
                (fun acc c => if i8 (-(gameR c)) > acc then i8 (-(gameR c)) else acc) m ∧
          InvR (ttLoop rec d cs (ttStep rec d c m (-128) beta' t).1 (-128) beta'
            (ttStep rec d c m (-128) beta' t).2).2 := by
      intro beta' hbeta'
      obtain ⟨q1, qI⟩ := hrec c beta' t hvc hlt hbeta' ht
      obtain ⟨s1, sI⟩ := ttStep_correct d hd1 hd2 rec c m beta' t hvc q1 qI hbeta'
      have hb : -1 ≤ (ttStep rec d c m (-128) beta' t).1 ∧
          (ttStep rec d c m (-128) beta' t).1 ≤ 1 := by
        rw [s1, i8_neg_gameR hvc]
        rcases hpm with h | h <;> rw [h] <;> constructor <;> split <;> omega
      obtain ⟨ih1, ih2⟩ := ih (ttStep rec d c m (-128) beta' t).1 beta'
        (ttStep rec d c m (-128) beta' t).2 hcs' hb.1 hb.2 hbeta' sI
      refine ⟨?_, ih2⟩
      rw [ih1, s1]
      simp only [List.foldl_cons]
    rcases ht c hvc with hzero | ⟨dd, hdd1, hdd2, he⟩
    · have hdep : getDepth t (hash c) = 0 := by
        unfold getDepth; rw [hzero]; rfl
      rw [ttLoop_cons_miss rec d c cs m (-128) beta t (by rw [hdep]; omega)]
      exact hcont beta hbeta
    · rcases hpm with hg | hg
      · -- gameR c = -1, so the stored score is 1: a usable EXACT record
        rw [hg] at he
        norm_num at he
        obtain ⟨hdep, hr, hty⟩ := entry_decode_exact1 hdd2 he
        by_cases hgd : d ≤ dd
        · rw [ttLoop_cons_exact rec d c cs m (-128) beta t ⟨by rw [hdep]; omega, by rw [hdep]; omega⟩ hty, hr]
          have hstep1 : (if i8 (-(gameR c)) > m then i8 (-(gameR c)) else m) = 1 := by
            have h1 : i8 (-(gameR c)) = 1 := by rw [hg]; decide
            rw [h1]; split <;> omega
          refine ⟨?_, ht⟩
          simp only [List.foldl_cons]
          rw [hstep1,
            foldl_step_top (fun c' => i8 (-(gameR c'))) cs 1 (fun c' hc' => ?_)]
          show i8 (-(gameR c')) ≤ 1
          rcases gameR_pm c' (hcs' c' hc').1 with h | h <;> rw [h] <;> decide
        · rw [ttLoop_cons_miss rec d c cs m (-128) beta t (by rw [hdep]; omega)]
          exact hcont beta hbeta
      · -- gameR c = 1, so the stored score is -1: decodes as UPPER/63
        rw [hg] at he
        obtain ⟨hdep, hr, hty⟩ := entry_decode_exactm1 hdd2 he
        by_cases hgd : d ≤ dd
        · rw [ttLoop_cons_upper63 rec d c cs m beta t ⟨by rw [hdep]; omega, by rw [hdep]; omega⟩ hty hr hbeta]
          exact hcont 63 (Or.inl rfl)
        · rw [ttLoop_cons_miss rec d c cs m (-128) beta t (by rw [hdep]; omega)]
          exact hcont beta hbeta

theorem miniMax_correct :
    ∀ (d : Nat) (s : GameState) (beta : Int) (t : Table),
      ValidState s → s.total < (d : Int) → d ≤ 255 → (beta = 63 ∨ beta = 127) → InvR t →
      (miniMax d s (-128) beta t).1 = gameR s ∧ InvR (miniMax d s (-128) beta t).2 := by
  intro d
  induction d with
  | zero =>
    intro s beta t hs hlt _ _ ht
    refine ⟨?_, ht⟩
    show i8 (s.activePlayer * eval s) = gameR s
    rw [base_val hs (by omega), gameR_terminal hs (by omega)]
  | succ k ih =>
    intro s beta t hs hlt hd hbeta ht
    by_cases hterm : s.total ≤ 0
    · have h1 : miniMax (k + 1) s (-128) beta t = (i8 (s.activePlayer * eval s), t) := by
        simp only [miniMax, if_pos hterm]
      rw [h1]
      exact ⟨by rw [base_val hs hterm, gameR_terminal hs hterm], ht⟩
    · push_neg at hterm
      have h1 : miniMax (k + 1) s (-128) beta t
          = ttLoop (miniMax k) (k + 1) (getPossibleStates s) (-1) (-128) beta t := by
        simp only [miniMax, if_neg (by omega : ¬s.total ≤ 0)]
      rw [h1]
      have hch := getPossibleStates_valid s hs (by omega)
      have hcs : ∀ c ∈ getPossibleStates s, ValidState c ∧ c.total < ((k + 1 : Nat) : Int) - 1 :=
        fun c hc => ⟨(hch c hc).1, by have := (hch c hc).2.1; push_cast; omega⟩
      obtain ⟨l1, l2⟩ := ttLoop_correct (k + 1) (by omega) (by omega) (miniMax k)
        (fun c beta' t' hvc hlt' hbeta' ht' =>
          ih c beta' t' hvc (by push_cast at hlt'; omega) (by omega) hbeta' ht')
        (getPossibleStates s) (-1) beta t hcs (by omega) (by omega) hbeta ht
      refine ⟨?_, l2⟩
      rw [l1, ← gameR_unfold hs (by omega)]

/-! ### The move selector -/

theorem getPossibleStates_four {s : GameState} (h1 : 1 ≤ s.lastMove) (h2 : s.lastMove ≤ 6) :
    ∃ a b c e, getPossibleStates s = [a, b, c, e] := by
  obtain ⟨lm, tot, ap, w⟩ := s
  dsimp only at h1 h2
  unfold getPossibleStates
  interval_cases lm <;> exact ⟨_, _, _, _, rfl⟩

theorem bestLoop_cons_ge (c : GameState) (cs : List GameState) (i : Nat) (mx : Int)
    (mi : Nat) (t : Table) (h : i8 (-(miniMax 100 c (-128) 127 t).1) ≥ mx) :
    bestLoop (c :: cs) i mx mi t
      = bestLoop cs (i + 1) (i8 (-(miniMax 100 c (-128) 127 t).1)) i
          (miniMax 100 c (-128) 127 t).2 := by
  simp only [bestLoop, if_pos h]

theorem bestLoop_cons_lt (c : GameState) (cs : List GameState) (i : Nat) (mx : Int)
    (mi : Nat) (t : Table) (h : ¬(i8 (-(miniMax 100 c (-128) 127 t).1) ≥ mx)) :
    bestLoop (c :: cs) i mx mi t
      = bestLoop cs (i + 1) mx mi (miniMax 100 c (-128) 127 t).2 := by
  simp only [bestLoop, if_neg h]

set_option maxHeartbeats 2000000 in
theorem bestLoop_char (c0 c1 c2 c3 : GameState) (t0 : Table)
    (e0 e1 e2 e3 : Int) (t1 t2 t3 : Table)
    (h0v : i8 (-(miniMax 100 c0 (-128) 127 t0).1) = e0)
    (h0t : (miniMax 100 c0 (-128) 127 t0).2 = t1)
    (h1v : i8 (-(miniMax 100 c1 (-128) 127 t1).1) = e1)
    (h1t : (miniMax 100 c1 (-128) 127 t1).2 = t2)
    (h2v : i8 (-(miniMax 100 c2 (-128) 127 t2).1) = e2)
    (h2t : (miniMax 100 c2 (-128) 127 t2).2 = t3)
    (h3v : i8 (-(miniMax 100 c3 (-128) 127 t3).1) = e3)
    (hb0 : -1 ≤ e0) (hb1 : -1 ≤ e1) (hb2 : -1 ≤ e2) (hb3 : -1 ≤ e3) :
    scoresList [c0, c1, c2, c3] t0 = [e0, e1, e2, e3] ∧
    ∃ j, j < 4 ∧
      (bestLoop [c0, c1, c2, c3] 0 (-2) 255 t0).1 = [e0, e1, e2, e3].getD j (-2) ∧
      (bestLoop [c0, c1, c2, c3] 0 (-2) 255 t0).2.1 = j ∧
      (∀ k, k < 4 → [e0, e1, e2, e3].getD k (-2) ≤ [e0, e1, e2, e3].getD j (-2)) ∧
      (∀ k, k < 4 → j < k → [e0, e1, e2, e3].getD k (-2) < [e0, e1, e2, e3].getD j (-2)) := by
  constructor
  · simp only [scoresList]
    rw [h0v, h0t, h1v, h1t, h2v, h2t, h3v]
  rw [bestLoop_cons_ge c0 _ _ _ _ _ (by rw [h0v]; omega), h0v, h0t]
  by_cases H1 : e1 ≥ e0
  · rw [bestLoop_cons_ge c1 _ _ _ _ _ (by rw [h1v]; exact H1), h1v, h1t]
    by_cases H2 : e2 ≥ e1
    · rw [bestLoop_cons_ge c2 _ _ _ _ _ (by rw [h2v]; exact H2), h2v, h2t]
      by_cases H3 : e3 ≥ e2
      · rw [bestLoop_cons_ge c3 _ _ _ _ _ (by rw [h3v]; exact H3), h3v]
        refine ⟨3, by norm_num, rfl, rfl, ?_, ?_⟩
        · intro k hk
          interval_cases k <;>
            simp only [List.getD_cons_zero, List.getD_cons_succ] <;> omega
        · intro k hk hjk; omega
      · rw [bestLoop_cons_lt c3 _ _ _ _ _ (by rw [h3v]; exact H3)]
        refine ⟨2, by norm_num, rfl, rfl, ?_, ?_⟩
        · intro k hk
          interval_cases k <;>
            simp only [List.getD_cons_zero, List.getD_cons_succ] <;> omega
        · intro k hk hjk
          interval_cases k <;>
            simp only [List.getD_cons_zero, List.getD_cons_succ] <;> omega
    · rw [bestLoop_cons_lt c2 _ _ _ _ _ (by rw [h2v]; exact H2), h2t]
      by_cases H3 : e3 ≥ e1
      · rw [bestLoop_cons_ge c3 _ _ _ _ _ (by rw [h3v]; exact H3), h3v]
        refine ⟨3, by norm_num, rfl, rfl, ?_, ?_⟩
        · intro k hk
          interval_cases k <;>
            simp only [List.getD_cons_zero, List.getD_cons_succ] <;> omega
        · intro k hk hjk; omega
      · rw [bestLoop_cons_lt c3 _ _ _ _ _ (by rw [h3v]; exact H3)]
        refine ⟨1, by norm_num, rfl, rfl, ?_, ?_⟩
        · intro k hk
          interval_cases k <;>
            simp only [List.getD_cons_zero, List.getD_cons_succ] <;> omega
        · intro k hk hjk
          interval_cases k <;>
            simp only [List.getD_cons_zero, List.getD_cons_succ] <;> omega
  · rw [bestLoop_cons_lt c1 _ _ _ _ _ (by rw [h1v]; exact H1), h1t]
    by_cases H2 : e2 ≥ e0
    · rw [bestLoop_cons_ge c2 _ _ _ _ _ (by rw [h2v]; exact H2), h2v, h2t]
      by_cases H3 : e3 ≥ e2
      · rw [bestLoop_cons_ge c3 _ _ _ _ _ (by rw [h3v]; exact H3), h3v]
        refine ⟨3, by norm_num, rfl, rfl, ?_, ?_⟩
        · intro k hk
          interval_cases k <;>
            simp only [List.getD_cons_zero, List.getD_cons_succ] <;> omega
        · intro k hk hjk; omega
      · rw [bestLoop_cons_lt c3 _ _ _ _ _ (by rw [h3v]; exact H3)]
        refine ⟨2, by norm_num, rfl, rfl, ?_, ?_⟩
        · intro k hk
          interval_cases k <;>
            simp only [List.getD_cons_zero, List.getD_cons_succ] <;> omega
        · intro k hk hjk
          interval_cases k <;>
            simp only [List.getD_cons_zero, List.getD_cons_succ] <;> omega
    · rw [bestLoop_cons_lt c2 _ _ _ _ _ (by rw [h2v]; exact H2), h2t]
      by_cases H3 : e3 ≥ e0
      · rw [bestLoop_cons_ge c3 _ _ _ _ _ (by rw [h3v]; exact H3), h3v]
        refine ⟨3, by norm_num, rfl, rfl, ?_, ?_⟩
        · intro k hk
          interval_cases k <;>
            simp only [List.getD_cons_zero, List.getD_cons_succ] <;> omega
        · intro k hk hjk; omega
      · rw [bestLoop_cons_lt c3 _ _ _ _ _ (by rw [h3v]; exact H3)]
        refine ⟨0, by norm_num, rfl, rfl, ?_, ?_⟩
        · intro k hk
          interval_cases k <;>
            simp only [List.getD_cons_zero, List.getD_cons_succ] <;> omega
        · intro k hk hjk
          interval_cases k <;>
            simp only [List.getD_cons_zero, List.getD_cons_succ] <;> omega

/-! ### Claims -/

set_option maxRecDepth 10000 in
/-- C1 (counterexample): for the configuration (lastMove 1, total 12,
active player 1) at depth bound 5 — well below the game's natural maximum
length from total 12 — the table-enabled alpha-beta search from a
zero-initialized table returns 1, while the unpruned, table-free full
minimax over the same depth bound returns 0. -/
theorem C1_counterexample :
    (miniMax 5 ⟨1, 12, 1, 0⟩ (-128) 127 zeroT).1 = 1 ∧
    fullMiniMax 5 ⟨1, 12, 1, 0⟩ = 0 ∧
    (miniMax 5 ⟨1, 12, 1, 0⟩ (-128) 127 zeroT).1 ≠ fullMiniMax 5 ⟨1, 12, 1, 0⟩ := by
  have a : (miniMax 5 ⟨1, 12, 1, 0⟩ (-128) 127 zeroT).1 = 1 := by decide
  have b : fullMiniMax 5 ⟨1, 12, 1, 0⟩ = 0 := by decide
  exact ⟨a, b, by rw [a, b]; decide⟩

/-- C1 (amended): for every valid configuration and every depth bound
strictly greater than the configuration's total (in particular the
program's own root calls at depth 100), the score returned by `miniMax`
with alpha-beta pruning and the transposition table enabled (zero table,
alpha = -128, beta = 127) equals the score of the unpruned, table-free
full minimax over the same depth bound.  For smaller depth bounds the two
can differ, because the table serves records computed deeper than the
current bound (see the counterexample). -/
theorem C1_pruning_equiv_above_total (s : GameState) (d : Nat)
    (hs : ValidState s) (hd : s.total < (d : Int)) (hd255 : d ≤ 255) :
    (miniMax d s (-128) 127 zeroT).1 = fullMiniMax d s := by
  obtain ⟨h1, _⟩ := miniMax_correct d s 127 zeroT hs hd hd255 (Or.inr rfl) InvR_zero
  rw [h1, fullMiniMax_stable d s hs hd]

/-- Witness for C1 (amended) at lastMove 1, total 3, depth 4. -/
theorem C1_pruning_equiv_above_total_witness :
    ValidState ⟨1, 3, 1, 0⟩ ∧
    (miniMax 4 ⟨1, 3, 1, 0⟩ (-128) 127 zeroT).1 = fullMiniMax 4 ⟨1, 3, 1, 0⟩ :=
  ⟨by decide, C1_pruning_equiv_above_total ⟨1, 3, 1, 0⟩ 4 (by decide) (by decide) (by decide)⟩

/-- C2: `performMove` subtracts the move from the total, negates the
active player, records the move as `lastMove`, sets `winner` to the new
active player exactly when the new total is ≤ 0 (else 0), and in the
terminal case the recorded winner is the negation of the mover — never
the mover itself. -/
theorem C2_applyMove (s : GameState) (m : Nat) (hm1 : 1 ≤ m) (hm6 : m ≤ 6)
    (ht1 : -122 ≤ s.total) (ht2 : s.total ≤ 127)
    (hp : s.activePlayer = 1 ∨ s.activePlayer = -1) :
    (performMove s m).total = s.total - m ∧
    (performMove s m).activePlayer = -s.activePlayer ∧
    (performMove s m).lastMove = m ∧
    (performMove s m).winner
      = (if (performMove s m).total ≤ 0 then (performMove s m).activePlayer else 0) ∧
    ((performMove s m).total ≤ 0 →
      (performMove s m).winner = -s.activePlayer ∧
        (performMove s m).winner ≠ s.activePlayer) := by
  obtain ⟨htot, hact, hlm, hwin⟩ := performMove_fields s m hm1 hm6 ht1 ht2 hp
  refine ⟨htot, hact, hlm, by rw [hwin, htot, hact], ?_⟩
  intro hterm
  rw [htot] at hterm
  rw [hwin, if_pos hterm]
  rcases hp with h | h <;> rw [h] <;> exact ⟨rfl, by decide⟩

/-- Witness for C2 at lastMove 1, total 10, player 1, move 3. -/
theorem C2_applyMove_witness :
    (1 ≤ 3 ∧ (3 : Nat) ≤ 6) ∧
    ((performMove ⟨1, 10, 1, 0⟩ 3).total = (10 : Int) - 3 ∧
      (performMove ⟨1, 10, 1, 0⟩ 3).activePlayer = -(1 : Int) ∧
      (performMove ⟨1, 10, 1, 0⟩ 3).lastMove = 3 ∧
      (performMove ⟨1, 10, 1, 0⟩ 3).winner
        = (if (performMove ⟨1, 10, 1, 0⟩ 3).total ≤ 0
            then (performMove ⟨1, 10, 1, 0⟩ 3).activePlayer else 0) ∧
      ((performMove ⟨1, 10, 1, 0⟩ 3).total ≤ 0 →
        (performMove ⟨1, 10, 1, 0⟩ 3).winner = -(1 : Int) ∧
          (performMove ⟨1, 10, 1, 0⟩ 3).winner ≠ (1 : Int))) :=
  ⟨by decide, C2_applyMove ⟨1, 10, 1, 0⟩ 3 (by decide) (by decide) (by decide) (by decide)
    (Or.inl rfl)⟩

/-- C3: the state encoder is injective — two configurations whose four
fields lie in the byte ranges the hash packs (in particular all states
the Rule Engine produces) that differ in any field receive distinct
keys. -/
theorem C3_hash_injective (s s' : GameState) (hs : InByteRange s) (hs' : InByteRange s')
    (hne : s ≠ s') : hash s ≠ hash s' :=
  fun h => hne (hash_inj hs hs' h)

/-- Witness for C3: two states differing only in `lastMove`. -/
theorem C3_hash_injective_witness :
    InByteRange ⟨1, 10, 1, 0⟩ ∧ InByteRange ⟨2, 10, 1, 0⟩ ∧
    hash ⟨1, 10, 1, 0⟩ ≠ hash ⟨2, 10, 1, 0⟩ :=
  ⟨by decide, by decide,
    C3_hash_injective ⟨1, 10, 1, 0⟩ ⟨2, 10, 1, 0⟩ (by decide) (by decide) (by decide)⟩

/-- C4 (counterexample): storing a record with depth 1, boundType EXACT
(1) and score -1, then reading it back, yields node type UPPER (3) — the
truncated 8-bit score's bits 6–7 are OR-ed into the boundType field, so
the stored boundType is *not* returned exactly. -/
theorem C4_counterexample :
    getNodeType (update zeroT 0 (makeTTVal 1 (-1) NODE_TYPE_EXACT)) 0 = NODE_TYPE_UPPER ∧
    getNodeType (update zeroT 0 (makeTTVal 1 (-1) NODE_TYPE_EXACT)) 0 ≠ NODE_TYPE_EXACT := by
  constructor <;> decide

/-- C4 (amended): the store/lookup round-trip is exact — depth, boundType
and score are each returned exactly — provided the depth fits its 8-bit
field, the boundType is one of EXACT/LOWER/UPPER, and the score lies in
[0, 63] (so that its 8-bit image fits the 6-bit score field and its bits
6–7 are clear).  For other scores the boundType field is corrupted as in
the counterexample. -/
theorem C4_roundtrip (t : Table) (k : Nat) (dd : Nat) (v : Int) (ty : Nat)
    (hdd : dd ≤ 255) (hty1 : 1 ≤ ty) (hty : ty ≤ 3) (hv0 : 0 ≤ v) (hv : v ≤ 63) :
    getDepth (update t k (makeTTVal dd v ty)) k = dd ∧
    getNodeType (update t k (makeTTVal dd v ty)) k = ty ∧
    getRating (update t k (makeTTVal dd v ty)) k = v := by
  have hu : u8 v = v.toNat := by unfold u8; omega
  have hlow : (ty <<< 6) ||| u8 v = ty * 64 + v.toNat := by
    rw [hu]
    have h := shiftLeft_lor_eq ty 6 (b := v.toNat) (by norm_num; omega)
    norm_num at h
    omega
  obtain ⟨h1, h2, h3⟩ := entry_decode hdd hty (update_self t k (makeTTVal dd v ty))
  refine ⟨h1, ?_, ?_⟩
  · rw [h3, hlow]
    omega
  · rw [h2, hlow]
    have hmod : (ty * 64 + v.toNat) % 64 = v.toNat := by omega
    rw [hmod]
    have hcast : ((v.toNat : Nat) : Int) = v := by omega
    rw [hcast, i8_eq (by omega) (by omega)]

/-- Witness for C4 (amended) at depth 7, boundType LOWER, score 5. -/
theorem C4_roundtrip_witness :
    ((0 : Int) ≤ 5 ∧ (5 : Int) ≤ 63) ∧
    (getDepth (update zeroT 0 (makeTTVal 7 5 2)) 0 = 7 ∧
      getNodeType (update zeroT 0 (makeTTVal 7 5 2)) 0 = 2 ∧
      getRating (update zeroT 0 (makeTTVal 7 5 2)) 0 = 5) :=
  ⟨by decide, C4_roundtrip zeroT 0 7 5 2 (by decide) (by decide) (by decide)
    (by decide) (by decide)⟩

/-- C5: in the child loop, a table record is consulted only when its
stored depth is positive and at least the current depth (otherwise the
loop recurses and stores); a consulted EXACT record makes the current
`miniMax` call return its stored score immediately; otherwise a LOWER
record raises alpha to the stored score if higher and an UPPER record
lowers beta to the stored score if lower, and if after that adjustment
alpha ≥ beta the call returns max(storedScore, best) without recursing
into this or any later child. -/
theorem C5_tt_consult (rec : GameState → Int → Int → Table → Int × Table) (d : Nat)
    (c : GameState) (cs : List GameState) (m alpha beta : Int) (t : Table) :
    (¬(0 < getDepth t (hash c) ∧ d ≤ getDepth t (hash c)) →
      ttLoop rec d (c :: cs) m alpha beta t
        = ttLoop rec d cs (ttStep rec d c m alpha beta t).1 alpha beta
            (ttStep rec d c m alpha beta t).2) ∧
    (0 < getDepth t (hash c) → d ≤ getDepth t (hash c) →
      getNodeType t (hash c) = NODE_TYPE_EXACT →
      ttLoop rec d (c :: cs) m alpha beta t = (getRating t (hash c), t)) ∧
    (0 < getDepth t (hash c) → d ≤ getDepth t (hash c) →
      getNodeType t (hash c) ≠ NODE_TYPE_EXACT →
      (let alpha' := if getNodeType t (hash c) = NODE_TYPE_LOWER ∧ getRating t (hash c) > alpha
          then getRating t (hash c) else alpha
       let beta' := if getNodeType t (hash c) = NODE_TYPE_UPPER ∧ getRating t (hash c) < beta
          then getRating t (hash c) else beta
       (alpha' ≥ beta' →
          ttLoop rec d (c :: cs) m alpha beta t = (max (getRating t (hash c)) m, t)) ∧
       (¬(alpha' ≥ beta') →
          ttLoop rec d (c :: cs) m alpha beta t
            = ttLoop rec d cs (ttStep rec d c m alpha' beta' t).1 alpha' beta'
                (ttStep rec d c m alpha' beta' t).2))) := by
  refine ⟨fun h => ttLoop_cons_miss rec d c cs m alpha beta t h,
    fun h1 h2 h3 => ttLoop_cons_exact rec d c cs m alpha beta t ⟨h1, h2⟩ h3,
    fun h1 h2 h3 => ?_⟩
  dsimp only
  constructor
  · intro hcut
    simp only [ttLoop, if_pos (⟨h1, h2⟩ : 0 < getDepth t (hash c) ∧ d ≤ getDepth t (hash c)),
      if_neg h3, if_pos hcut]
    have hmax : (if getRating t (hash c) > m then getRating t (hash c) else m)
        = max (getRating t (hash c)) m := by
      split <;> omega
    rw [hmax]
  · intro hncut
    simp only [ttLoop, if_pos (⟨h1, h2⟩ : 0 < getDepth t (hash c) ∧ d ≤ getDepth t (hash c)),
      if_neg h3, if_neg hncut]

/-- Witness for C5: an EXACT record at sufficient depth returns its score
as the whole call's result. -/
theorem C5_tt_consult_witness :
    ttLoop (fun _ _ _ t => ((0 : Int), t)) 3 [⟨5, 7, 1, 0⟩] 0 (-128) 127
        (update zeroT (hash ⟨5, 7, 1, 0⟩) (makeTTVal 5 1 NODE_TYPE_EXACT))
      = (getRating (update zeroT (hash ⟨5, 7, 1, 0⟩) (makeTTVal 5 1 NODE_TYPE_EXACT))
            (hash ⟨5, 7, 1, 0⟩),
          update zeroT (hash ⟨5, 7, 1, 0⟩) (makeTTVal 5 1 NODE_TYPE_EXACT)) :=
  (C5_tt_consult (fun _ _ _ t => ((0 : Int), t)) 3 ⟨5, 7, 1, 0⟩ [] 0 (-128) 127
    (update zeroT (hash ⟨5, 7, 1, 0⟩) (makeTTVal 5 1 NODE_TYPE_EXACT))).2.1
    (by decide) (by decide) (by decide)

/-- C6 (counterexample): from lastMove 1, the successors are enumerated
with faces [5, 4, 3, 2] — descending, not ascending, and not the i-th
smallest legal face first. -/
theorem C6_counterexample :
    (getPossibleStates ⟨1, 10, 1, 0⟩).map GameState.lastMove = [5, 4, 3, 2] ∧
    ¬ List.Sorted (· ≤ ·) ((getPossibleStates ⟨1, 10, 1, 0⟩).map GameState.lastMove) ∧
    (getPossibleStates ⟨1, 10, 1, 0⟩).map GameState.lastMove ≠ [2, 3, 4, 5] := by
  refine ⟨by decide, by decide, by decide⟩

/-- C6 (amended): for every configuration with lastMove in {1..6}, the
four successor faces are enumerated in strictly *descending* face value
(skipping the two excluded faces): the i-th successor carries the i-th
*largest* legal face. -/
theorem C6_descending_order (s : GameState) (h1 : 1 ≤ s.lastMove) (h2 : s.lastMove ≤ 6) :
    (getPossibleStates s).map GameState.lastMove
      = (((List.range 6).map (· + 1)).filter
          (fun f => decide (f ≠ s.lastMove ∧ f + s.lastMove ≠ 7))).reverse ∧
    List.Sorted (· > ·) ((getPossibleStates s).map GameState.lastMove) := by
  obtain ⟨lm, tot, ap, w⟩ := s
  dsimp only at h1 h2 ⊢
  interval_cases lm <;>
    exact ⟨by simp only [getPossibleStates, List.map_cons, List.map_nil,
        performMove_lastMove]; decide,
      by simp only [getPossibleStates, List.map_cons, List.map_nil,
        performMove_lastMove]; decide⟩

/-- Witness for C6 (amended) at lastMove 3. -/
theorem C6_descending_order_witness :
    (1 ≤ 3 ∧ (3 : Nat) ≤ 6) ∧
    ((getPossibleStates ⟨3, 20, -1, 0⟩).map GameState.lastMove
        = (((List.range 6).map (· + 1)).filter
            (fun f => decide (f ≠ 3 ∧ f + 3 ≠ 7))).reverse ∧
      List.Sorted (· > ·) ((getPossibleStates ⟨3, 20, -1, 0⟩).map GameState.lastMove)) :=
  ⟨by decide, C6_descending_order ⟨3, 20, -1, 0⟩ (by decide) (by decide)⟩

/-- C7: for every configuration with lastMove in {1..6}, the move
generator produces exactly 4 successors, and none of their faces equals
the input's lastMove or sums to 7 with it. -/
theorem C7_legal_moves (s : GameState) (h1 : 1 ≤ s.lastMove) (h2 : s.lastMove ≤ 6) :
    (getPossibleStates s).length = 4 ∧
    ∀ c ∈ getPossibleStates s, c.lastMove ≠ s.lastMove ∧ c.lastMove + s.lastMove ≠ 7 := by
  obtain ⟨lm, tot, ap, w⟩ := s
  dsimp only at h1 h2 ⊢
  interval_cases lm <;>
    refine ⟨rfl, ?_⟩ <;>
    intro c hc <;>
    simp only [getPossibleStates, List.mem_cons, List.not_mem_nil, or_false] at hc <;>
    rcases hc with rfl | rfl | rfl | rfl <;>
    exact ⟨by rw [performMove_lastMove]; decide, by rw [performMove_lastMove]; decide⟩

/-- Witness for C7 at lastMove 2. -/
theorem C7_legal_moves_witness :
    (1 ≤ 2 ∧ (2 : Nat) ≤ 6) ∧
    ((getPossibleStates ⟨2, 9, 1, 0⟩).length = 4 ∧
      ∀ c ∈ getPossibleStates ⟨2, 9, 1, 0⟩,
        c.lastMove ≠ (⟨2, 9, 1, 0⟩ : GameState).lastMove ∧
          c.lastMove + (⟨2, 9, 1, 0⟩ : GameState).lastMove ≠ 7) :=
  ⟨by decide, C7_legal_moves ⟨2, 9, 1, 0⟩ (by decide) (by decide)⟩

/-- C8: if the depth bound is 0 or the configuration is terminal,
`miniMax` returns `activePlayer * eval`, where `eval` is the winner on a
terminal configuration and 0 otherwise; hence a non-terminal
depth-exhausted call returns 0. -/
theorem C8_base_case (d : Nat) (s : GameState) (alpha beta : Int) (t : Table)
    (h : d = 0 ∨ s.total ≤ 0) (hp : s.activePlayer = 1 ∨ s.activePlayer = -1)
    (hw : -127 ≤ s.winner) (hw2 : s.winner ≤ 127) :
    (miniMax d s alpha beta t).1 = s.activePlayer * eval s ∧
    eval s = (if s.total ≤ 0 then s.winner else 0) ∧
    (0 < s.total → (miniMax d s alpha beta t).1 = 0) := by
  have hval : (miniMax d s alpha beta t).1 = i8 (s.activePlayer * eval s) := by
    cases d with
    | zero => rfl
    | succ k =>
      rcases h with h | h
      · exact absurd h (Nat.succ_ne_zero k)
      · simp only [miniMax, if_pos h]
  refine ⟨?_, eval_eq s, ?_⟩
  · rw [hval, eval_eq]
    rcases hp with h' | h' <;> rw [h'] <;> split <;> apply i8_eq <;> omega
  · intro hpos
    rw [hval, eval_eq, if_neg (by omega), mul_zero]
    decide

/-- Witness for C8 at depth 0, non-terminal total 5. -/
theorem C8_base_case_witness :
    ((0 : Nat) = 0 ∨ (⟨1, 5, 1, 0⟩ : GameState).total ≤ 0) ∧
    ((miniMax 0 ⟨1, 5, 1, 0⟩ (-128) 127 zeroT).1
        = (⟨1, 5, 1, 0⟩ : GameState).activePlayer * eval ⟨1, 5, 1, 0⟩ ∧
      eval ⟨1, 5, 1, 0⟩
        = (if (⟨1, 5, 1, 0⟩ : GameState).total ≤ 0
            then (⟨1, 5, 1, 0⟩ : GameState).winner else 0) ∧
      (0 < (⟨1, 5, 1, 0⟩ : GameState).total →
        (miniMax 0 ⟨1, 5, 1, 0⟩ (-128) 127 zeroT).1 = 0)) :=
  ⟨Or.inl rfl, C8_base_case 0 ⟨1, 5, 1, 0⟩ (-128) 127 zeroT (Or.inl rfl)
    (Or.inl rfl) (by decide) (by decide)⟩

/-- C9: `makeBestMove` evaluates the four successors in generation order
at depth 100 with the full window (threading the shared table through the
four searches) and returns the successor achieving the maximum score;
because the running best is updated with `>=`, among equally scored
successors the *last* one in enumeration order is returned: there is an
index j with maximal score such that every later successor scores
strictly less. -/
theorem C9_bestMove_last_argmax (s : GameState) (t : Table)
    (hs : ValidState s) (h1 : 1 ≤ s.total) (ht : Inv10 t) :
    ∃ j, j < 4 ∧
      (makeBestMove s t).1 = (getPossibleStates s).getD j dummyState ∧
      (∀ k, k < 4 →
        (scoresList (getPossibleStates s) t).getD k (-2)
          ≤ (scoresList (getPossibleStates s) t).getD j (-2)) ∧
      (∀ k, k < 4 → j < k →
        (scoresList (getPossibleStates s) t).getD k (-2)
          < (scoresList (getPossibleStates s) t).getD j (-2)) := by
  obtain ⟨c0, c1, c2, c3, hns⟩ := getPossibleStates_four hs.1 hs.2.1
  have hch := getPossibleStates_valid s hs h1
  rw [hns] at hch
  have hvc0 : ValidState c0 := (hch c0 (by simp)).1
  have hvc1 : ValidState c1 := (hch c1 (by simp)).1
  have hvc2 : ValidState c2 := (hch c2 (by simp)).1
  have hvc3 : ValidState c3 := (hch c3 (by simp)).1
  obtain ⟨⟨a0, b0⟩, I1⟩ := miniMax_range 100 c0 127 t hvc0 (by omega) (Or.inr rfl) ht
  obtain ⟨⟨a1, b1⟩, I2⟩ := miniMax_range 100 c1 127
    (miniMax 100 c0 (-128) 127 t).2 hvc1 (by omega) (Or.inr rfl) I1
  obtain ⟨⟨a2, b2⟩, I3⟩ := miniMax_range 100 c2 127
    (miniMax 100 c1 (-128) 127 (miniMax 100 c0 (-128) 127 t).2).2 hvc2
    (by omega) (Or.inr rfl) I2
  obtain ⟨⟨a3, b3⟩, _⟩ := miniMax_range 100 c3 127
    (miniMax 100 c2 (-128) 127
      (miniMax 100 c1 (-128) 127 (miniMax 100 c0 (-128) 127 t).2).2).2 hvc3
    (by omega) (Or.inr rfl) I3
  obtain ⟨hsc, j, hj4, hv, hidx, hmax, hlast⟩ :=
    bestLoop_char c0 c1 c2 c3 t _ _ _ _ _ _ _ rfl rfl rfl rfl rfl rfl rfl
      (by rw [i8_eq (by omega) (by omega)]; omega)
      (by rw [i8_eq (by omega) (by omega)]; omega)
      (by rw [i8_eq (by omega) (by omega)]; omega)
      (by rw [i8_eq (by omega) (by omega)]; omega)
  rw [hns, hsc]
  refine ⟨j, hj4, ?_, hmax, hlast⟩
  have hne : (bestLoop [c0, c1, c2, c3] 0 (-2) 255 t).1 ≠ -2 := by
    rw [hv]
    have hb0 : -1 ≤ i8 (-(miniMax 100 c0 (-128) 127 t).1) := by
      rw [i8_eq (by omega) (by omega)]; omega
    have hb1 : -1 ≤ i8 (-(miniMax 100 c1 (-128) 127 (miniMax 100 c0 (-128) 127 t).2).1) := by
      rw [i8_eq (by omega) (by omega)]; omega
    have hb2 : -1 ≤ i8 (-(miniMax 100 c2 (-128) 127
        (miniMax 100 c1 (-128) 127 (miniMax 100 c0 (-128) 127 t).2).2).1) := by
      rw [i8_eq (by omega) (by omega)]; omega
    have hb3 : -1 ≤ i8 (-(miniMax 100 c3 (-128) 127
        (miniMax 100 c2 (-128) 127
          (miniMax 100 c1 (-128) 127 (miniMax 100 c0 (-128) 127 t).2).2).2).1) := by
      rw [i8_eq (by omega) (by omega)]; omega
    interval_cases j <;>
      simp only [List.getD_cons_zero, List.getD_cons_succ] <;> omega
  unfold makeBestMove
  dsimp only
  rw [hns, if_neg hne, hidx]

/-- Witness for C9 at lastMove 1, total 3, zero table. -/
theorem C9_bestMove_last_argmax_witness :
    ValidState ⟨1, 3, 1, 0⟩ ∧
    (∃ j, j < 4 ∧
      (makeBestMove ⟨1, 3, 1, 0⟩ zeroT).1
        = (getPossibleStates ⟨1, 3, 1, 0⟩).getD j dummyState ∧
      (∀ k, k < 4 →
        (scoresList (getPossibleStates ⟨1, 3, 1, 0⟩) zeroT).getD k (-2)
          ≤ (scoresList (getPossibleStates ⟨1, 3, 1, 0⟩) zeroT).getD j (-2)) ∧
      (∀ k, k < 4 → j < k →
        (scoresList (getPossibleStates ⟨1, 3, 1, 0⟩) zeroT).getD k (-2)
          < (scoresList (getPossibleStates ⟨1, 3, 1, 0⟩) zeroT).getD j (-2))) :=
  ⟨by decide, C9_bestMove_last_argmax ⟨1, 3, 1, 0⟩ zeroT (by decide) (by decide) Inv10_zero⟩

/-- C10: starting from any table satisfying the store invariant (in
particular the zero-initialized table) with window alpha = -128 and beta
in {63, 127} (127 at the root; the only in-search adjustment lowers beta
to 63), every value `miniMax` returns lies in {-1, 0, 1}, and the table
after the call still satisfies the invariant — every record ever stored
holds a score in {-1, 0, 1} despite the 6-bit score field and the
un-masked packing. -/
theorem C10_score_range (d : Nat) (s : GameState) (beta : Int) (t : Table)
    (hs : ValidState s) (hd : d ≤ 255) (hbeta : beta = 63 ∨ beta = 127) (ht : Inv10 t) :
    ((miniMax d s (-128) beta t).1 = -1 ∨ (miniMax d s (-128) beta t).1 = 0 ∨
      (miniMax d s (-128) beta t).1 = 1) ∧
    Inv10 (miniMax d s (-128) beta t).2 := by
  obtain ⟨⟨hlo, hhi⟩, hI⟩ := miniMax_range d s beta t hs hd hbeta ht
  exact ⟨by omega, hI⟩

/-- Witness for C10 at lastMove 1, total 4, depth 3, zero table. -/
theorem C10_score_range_witness :
    ValidState ⟨1, 4, 1, 0⟩ ∧
    (((miniMax 3 ⟨1, 4, 1, 0⟩ (-128) 127 zeroT).1 = -1 ∨
      (miniMax 3 ⟨1, 4, 1, 0⟩ (-128) 127 zeroT).1 = 0 ∨
      (miniMax 3 ⟨1, 4, 1, 0⟩ (-128) 127 zeroT).1 = 1) ∧
      Inv10 (miniMax 3 ⟨1, 4, 1, 0⟩ (-128) 127 zeroT).2) :=
  ⟨by decide, C10_score_range 3 ⟨1, 4, 1, 0⟩ 127 zeroT (by decide) (by decide)
    (Or.inr rfl) Inv10_zero⟩

end DiceFlip
